import Mathlib

/-!
Shallow embedding of the chess rules engine and minimax search of
`src/utils/chessLogic.ts` (types from `src/types/chess.ts`), together with
theorems settling the specification claims about it.

Conventions of the embedding:
* TypeScript numbers used as board coordinates become `Int`.
* A TypeScript array `Board = (Piece | null)[][]` becomes
  `List (List (Option Piece))`; reads outside the stored lists yield `none`
  and writes outside them are no-ops (all reads and writes performed by the
  reachable code paths are in bounds of an 8x8 board).
* Functions returning `T | null` become `Option`-valued functions.
* The `while` loop of `getSlidingMoves` is embedded with fuel 8, which is an
  upper bound on its iteration count (each step moves one coordinate
  monotonically by 1 and the loop stops as soon as the position leaves
  the 0..7 range).
-/

set_option maxHeartbeats 4000000
set_option maxRecDepth 4000
set_option linter.unusedVariables false
set_option linter.unreachableTactic false
set_option linter.unusedTactic false
set_option linter.unnecessarySimpa false
set_option linter.unnecessarySeqFocus false

namespace Chess

inductive PieceColor where
  | white
  | black
deriving DecidableEq, Repr

inductive PieceType where
  | king
  | queen
  | rook
  | bishop
  | knight
  | pawn
deriving DecidableEq, Repr

structure Piece where
  type : PieceType
  color : PieceColor
deriving DecidableEq, Repr

structure Position where
  row : Int
  col : Int
deriving DecidableEq, Repr

/-- `Move` from `src/types/chess.ts` (fields `from` and `to` are Lean keywords,
renamed `fromPos`/`toPos`; the `notation` field is renamed `moveNotation`). -/
structure Move where
  fromPos : Position
  toPos : Position
  piece : Piece
  capturedPiece : Option Piece
  isEnPassant : Bool
  isCastling : Bool
  moveNotation : String
deriving DecidableEq, Repr

structure CastlingRights where
  whiteKingSide : Bool
  whiteQueenSide : Bool
  blackKingSide : Bool
  blackQueenSide : Bool
deriving DecidableEq, Repr

structure CapturedPieces where
  white : List Piece
  black : List Piece
deriving DecidableEq, Repr

abbrev Board := List (List (Option Piece))

structure GameState where
  board : Board
  currentPlayer : PieceColor
  selectedSquare : Option Position
  legalMoves : List Position
  moveHistory : List Move
  capturedPieces : CapturedPieces
  isCheck : Bool
  isCheckmate : Bool
  isStalemate : Bool
  lastMove : Option Move
  enPassantTarget : Option Position
  castlingRights : CastlingRights
deriving DecidableEq, Repr

open PieceColor PieceType

def oppositeColor : PieceColor → PieceColor
  | white => black
  | black => white

/-- Raw array read `board[r][c]`: `none` when the indices fall outside the
stored lists (TypeScript `undefined`/`null`). -/
def cellAt (board : Board) (r c : Int) : Option Piece :=
  if r < 0 || c < 0 then none
  else (board.getD r.toNat []).getD c.toNat none

/-- Raw array write `board[r][c] = v`; no-op outside the stored lists. -/
def setCell (board : Board) (r c : Int) (v : Option Piece) : Board :=
  if r < 0 || c < 0 then board
  else board.set r.toNat ((board.getD r.toNat []).set c.toNat v)

def isValidPosition (pos : Position) : Bool :=
  0 ≤ pos.row && pos.row < 8 && 0 ≤ pos.col && pos.col < 8

def getPieceAt (board : Board) (pos : Position) : Option Piece :=
  if isValidPosition pos then cellAt board pos.row pos.col else none

/-- The squares `(row, col)` for `row` and `col` in 0..7 in the row-major
order in which the source's nested `for` loops visit them. -/
def allSquares : List Position :=
  (List.range 8).flatMap (fun r =>
    (List.range 8).map (fun c => ⟨Int.ofNat r, Int.ofNat c⟩))

def findKing (board : Board) (color : PieceColor) : Option Position :=
  allSquares.find? (fun pos =>
    match cellAt board pos.row pos.col with
    | some piece => piece.type == king && piece.color == color
    | none => false)

def backRow : List PieceType := [rook, knight, bishop, queen, king, bishop, knight, rook]

def createInitialBoard : Board :=
  [ backRow.map (fun t => some ⟨t, black⟩)
  , List.replicate 8 (some ⟨pawn, black⟩)
  , List.replicate 8 none
  , List.replicate 8 none
  , List.replicate 8 none
  , List.replicate 8 none
  , List.replicate 8 (some ⟨pawn, white⟩)
  , backRow.map (fun t => some ⟨t, white⟩) ]

def pawnDirection (color : PieceColor) : Int :=
  if color == white then -1 else 1

def pawnStartRow (color : PieceColor) : Int :=
  if color == white then 6 else 1

def getPawnMoves (board : Board) (fromP : Position) (color : PieceColor)
    (enPassantTarget : Option Position) : List Position :=
  let direction := pawnDirection color
  let startRow := pawnStartRow color
  let forward : Position := ⟨fromP.row + direction, fromP.col⟩
  let forwardMoves :=
    if isValidPosition forward && (getPieceAt board forward).isNone then
      [forward] ++
        (if fromP.row == startRow then
          let doubleForward : Position := ⟨fromP.row + 2 * direction, fromP.col⟩
          if (getPieceAt board doubleForward).isNone then [doubleForward] else []
        else [])
    else []
  let captures : List Position :=
    [⟨fromP.row + direction, fromP.col - 1⟩, ⟨fromP.row + direction, fromP.col + 1⟩]
  let captureMoves := captures.flatMap (fun capture =>
    if isValidPosition capture then
      (match getPieceAt board capture with
       | some targetPiece => if targetPiece.color != color then [capture] else []
       | none => []) ++
      (match enPassantTarget with
       | some t => if capture.row == t.row && capture.col == t.col then [capture] else []
       | none => [])
    else [])
  forwardMoves ++ captureMoves

def knightOffsets : List (Int × Int) :=
  [(-2, -1), (-2, 1), (-1, -2), (-1, 2), (1, -2), (1, 2), (2, -1), (2, 1)]

def offsetMoves (board : Board) (fromP : Position) (color : PieceColor)
    (offsets : List (Int × Int)) : List Position :=
  offsets.flatMap (fun d =>
    let toP : Position := ⟨fromP.row + d.1, fromP.col + d.2⟩
    if isValidPosition toP then
      match getPieceAt board toP with
      | some targetPiece => if targetPiece.color != color then [toP] else []
      | none => [toP]
    else [])

def getKnightMoves (board : Board) (fromP : Position) (color : PieceColor) : List Position :=
  offsetMoves board fromP color knightOffsets

/-- One ray of `getSlidingMoves`' `while` loop, with fuel 8 (the loop body can
run at most 8 times on the 0..7 grid). -/
def slide (board : Board) (color : PieceColor) (d : Int × Int) :
    Nat → Int → Int → List Position
  | 0, _, _ => []
  | fuel + 1, r, c =>
    if isValidPosition ⟨r, c⟩ then
      match getPieceAt board ⟨r, c⟩ with
      | none => ⟨r, c⟩ :: slide board color d fuel (r + d.1) (c + d.2)
      | some targetPiece => if targetPiece.color != color then [⟨r, c⟩] else []
    else []

def getSlidingMoves (board : Board) (fromP : Position) (color : PieceColor)
    (directions : List (Int × Int)) : List Position :=
  directions.flatMap (fun d => slide board color d 8 (fromP.row + d.1) (fromP.col + d.2))

def getBishopMoves (board : Board) (fromP : Position) (color : PieceColor) : List Position :=
  getSlidingMoves board fromP color [(-1, -1), (-1, 1), (1, -1), (1, 1)]

def getRookMoves (board : Board) (fromP : Position) (color : PieceColor) : List Position :=
  getSlidingMoves board fromP color [(-1, 0), (1, 0), (0, -1), (0, 1)]

def getQueenMoves (board : Board) (fromP : Position) (color : PieceColor) : List Position :=
  getSlidingMoves board fromP color
    [(-1, -1), (-1, 0), (-1, 1), (0, -1), (0, 1), (1, -1), (1, 0), (1, 1)]

def kingOffsets : List (Int × Int) :=
  [(-1, -1), (-1, 0), (-1, 1), (0, -1), (0, 1), (1, -1), (1, 0), (1, 1)]

def getKingMoves (board : Board) (fromP : Position) (color : PieceColor) : List Position :=
  offsetMoves board fromP color kingOffsets

def getPseudoLegalMoves (board : Board) (fromP : Position)
    (enPassantTarget : Option Position) : List Position :=
  match getPieceAt board fromP with
  | none => []
  | some piece =>
    match piece.type with
    | pawn => getPawnMoves board fromP piece.color enPassantTarget
    | knight => getKnightMoves board fromP piece.color
    | bishop => getBishopMoves board fromP piece.color
    | rook => getRookMoves board fromP piece.color
    | queen => getQueenMoves board fromP piece.color
    | king => getKingMoves board fromP piece.color

def isSquareUnderAttack (board : Board) (pos : Position) (byColor : PieceColor) : Bool :=
  allSquares.any (fun sq =>
    match cellAt board sq.row sq.col with
    | some piece =>
      piece.color == byColor &&
        (getPseudoLegalMoves board sq none).any
          (fun move => move.row == pos.row && move.col == pos.col)
    | none => false)

def isInCheck (board : Board) (color : PieceColor) : Bool :=
  match findKing board color with
  | none => false
  | some kingPos => isSquareUnderAttack board kingPos (oppositeColor color)

inductive CastleSide where
  | kingside
  | queenside
deriving DecidableEq, Repr

def canCastle (board : Board) (color : PieceColor) (side : CastleSide) : Bool :=
  let row : Int := if color == white then 7 else 0
  let kingCol : Int := 4
  if isInCheck board color then false
  else
    match side with
    | CastleSide.kingside =>
      if (cellAt board row 5).isSome || (cellAt board row 6).isSome then false
      else
        let testBoard := setCell (setCell board row 5 (cellAt board row kingCol)) row kingCol none
        if isInCheck testBoard color then false
        else if isSquareUnderAttack board ⟨row, 6⟩ (oppositeColor color) then false
        else true
    | CastleSide.queenside =>
      if (cellAt board row 1).isSome || (cellAt board row 2).isSome ||
          (cellAt board row 3).isSome then false
      else
        let testBoard := setCell (setCell board row 3 (cellAt board row kingCol)) row kingCol none
        if isInCheck testBoard color then false
        else if isSquareUnderAttack board ⟨row, 2⟩ (oppositeColor color) then false
        else true

/-- The test of `getLegalMoves`/`makeMove` for "this move is the en-passant
capture": the piece is a pawn and the destination equals the stored target. -/
def isEpCapture (piece : Piece) (enPassantTarget : Option Position) (toP : Position) : Bool :=
  piece.type == pawn &&
    (match enPassantTarget with
     | some t => toP.row == t.row && toP.col == t.col
     | none => false)

/-- The row of the pawn removed by an en-passant capture landing on `to`. -/
def epCaptureRow (color : PieceColor) (toP : Position) : Int :=
  if color == white then toP.row + 1 else toP.row - 1

/-- The scratch board the legality filter builds when probing the move of
`piece` from `fromP` to `toP`: the piece is copied to the destination, the
source square cleared, and the en-passant victim removed when applicable. -/
def filterTestBoard (board : Board) (piece : Piece) (enPassantTarget : Option Position)
    (fromP toP : Position) : Board :=
  let testBoard := setCell (setCell board toP.row toP.col (cellAt board fromP.row fromP.col))
      fromP.row fromP.col none
  if isEpCapture piece enPassantTarget toP then
    setCell testBoard (epCaptureRow piece.color toP) toP.col none
  else testBoard

/-- The simulate-and-discard filter of `getLegalMoves`: play the move on the
scratch board and keep the destination only if the mover's king is not left
in check. -/
def legalFilter (board : Board) (piece : Piece) (enPassantTarget : Option Position)
    (fromP toP : Position) : Bool :=
  !(isInCheck (filterTestBoard board piece enPassantTarget fromP toP) piece.color)

/-- The castling destinations appended by `getLegalMoves` for a king, in the
source's push order (white kingside, white queenside, black kingside,
black queenside). -/
def castleMoves (board : Board) (piece : Piece) (castlingRights : CastlingRights) :
    List Position :=
  let row : Int := if piece.color == white then 7 else 0
  (if piece.color == white && castlingRights.whiteKingSide &&
      canCastle board piece.color CastleSide.kingside then [(⟨row, 6⟩ : Position)] else []) ++
  (if piece.color == white && castlingRights.whiteQueenSide &&
      canCastle board piece.color CastleSide.queenside then [(⟨row, 2⟩ : Position)] else []) ++
  (if piece.color == black && castlingRights.blackKingSide &&
      canCastle board piece.color CastleSide.kingside then [(⟨row, 6⟩ : Position)] else []) ++
  (if piece.color == black && castlingRights.blackQueenSide &&
      canCastle board piece.color CastleSide.queenside then [(⟨row, 2⟩ : Position)] else [])

def getLegalMoves (board : Board) (fromP : Position) (enPassantTarget : Option Position)
    (castlingRights : CastlingRights) : List Position :=
  match getPieceAt board fromP with
  | none => []
  | some piece =>
    let base := getPseudoLegalMoves board fromP enPassantTarget
    let moves := if piece.type == king then base ++ castleMoves board piece castlingRights
      else base
    moves.filter (fun toP => legalFilter board piece enPassantTarget fromP toP)

/-- `legalMoves.some(move => move.row === to.row && move.col === to.col)`:
the membership test `makeMove` applies to its requested destination. -/
def legalMoveMem (board : Board) (fromP : Position) (enPassantTarget : Option Position)
    (castlingRights : CastlingRights) (toP : Position) : Bool :=
  (getLegalMoves board fromP enPassantTarget castlingRights).any
    (fun move => move.row == toP.row && move.col == toP.col)

def checkHasLegalMoves (board : Board) (color : PieceColor)
    (enPassantTarget : Option Position) (castlingRights : CastlingRights) : Bool :=
  allSquares.any (fun sq =>
    match cellAt board sq.row sq.col with
    | some piece =>
      piece.color == color &&
        !(getLegalMoves board sq enPassantTarget castlingRights).isEmpty
    | none => false)

def pieceTypeUpperInitial : PieceType → String
  | king => "K"
  | queen => "Q"
  | rook => "R"
  | bishop => "B"
  | knight => "K"
  | pawn => "P"

def fileNames : List String := ["a", "b", "c", "d", "e", "f", "g", "h"]

def getMoveNotation (piece : Piece) (fromP toP : Position)
    (isCapture isEnPassant isCastling : Bool) : String :=
  if isCastling then (if toP.col == 6 then "O-O" else "O-O-O")
  else
    let pieceSymbol := if piece.type == pawn then "" else pieceTypeUpperInitial piece.type
    let captureSymbol := if isCapture || isEnPassant then "x" else ""
    let fromFile := if piece.type == pawn && isCapture then fileNames.getD fromP.col.toNat ""
      else ""
    let toSquare := fileNames.getD toP.col.toNat "" ++ toString (8 - toP.row)
    pieceSymbol ++ fromFile ++ captureSymbol ++ toSquare

def pushCaptured (cp : CapturedPieces) (color : PieceColor) (piece : Piece) : CapturedPieces :=
  match color with
  | white => { cp with white := cp.white ++ [piece] }
  | black => { cp with black := cp.black ++ [piece] }

/-- The body of `makeMove` after its legality gate: builds the successor
`GameState` for the validated move of `piece` from `fromP` to `toP`. -/
def applyMove (gameState : GameState) (fromP toP : Position) (piece : Piece) : GameState :=
  let board := gameState.board
  let capturedPiece := cellAt board toP.row toP.col
  let isEnPassant := isEpCapture piece gameState.enPassantTarget toP
  let captureRow := epCaptureRow piece.color toP
  let capturedPieces1 :=
    if isEnPassant then
      match cellAt board captureRow toP.col with
      | some capturedPawn => pushCaptured gameState.capturedPieces piece.color capturedPawn
      | none => gameState.capturedPieces
    else gameState.capturedPieces
  let board1 := if isEnPassant then setCell board captureRow toP.col none else board
  let isCastling := piece.type == king && (toP.col - fromP.col).natAbs == 2
  let board2 :=
    if isCastling then
      let rookFromCol : Int := if toP.col == 6 then 7 else 0
      let rookToCol : Int := if toP.col == 6 then 5 else 3
      setCell (setCell board1 toP.row rookToCol (cellAt board1 toP.row rookFromCol))
        toP.row rookFromCol none
    else board1
  let board3 := setCell (setCell board2 toP.row toP.col (some piece)) fromP.row fromP.col none
  let capturedPieces2 :=
    match capturedPiece with
    | some cap => if !isEnPassant then pushCaptured capturedPieces1 piece.color cap
        else capturedPieces1
    | none => capturedPieces1
  let newEnPassantTarget : Option Position :=
    if piece.type == pawn && (toP.row - fromP.row).natAbs == 2 then
      some ⟨(fromP.row + toP.row) / 2, fromP.col⟩
    else none
  let cr := gameState.castlingRights
  let cr1 :=
    if piece.type == king then
      if piece.color == white then { cr with whiteKingSide := false, whiteQueenSide := false }
      else { cr with blackKingSide := false, blackQueenSide := false }
    else cr
  let cr2 :=
    if piece.type == rook then
      if piece.color == white then
        let a := if fromP.row == 7 && fromP.col == 7 then { cr1 with whiteKingSide := false }
          else cr1
        if fromP.row == 7 && fromP.col == 0 then { a with whiteQueenSide := false } else a
      else
        let a := if fromP.row == 0 && fromP.col == 7 then { cr1 with blackKingSide := false }
          else cr1
        if fromP.row == 0 && fromP.col == 0 then { a with blackQueenSide := false } else a
    else cr1
  let move : Move :=
    { fromPos := fromP
      toPos := toP
      piece := piece
      capturedPiece := capturedPiece
      isEnPassant := isEnPassant
      isCastling := isCastling
      moveNotation := getMoveNotation piece fromP toP capturedPiece.isSome isEnPassant
        isCastling }
  let nextPlayer := if piece.color == white then black else white
  let isCheck := isInCheck board3 nextPlayer
  let hasLegalMoves := checkHasLegalMoves board3 nextPlayer newEnPassantTarget cr2
  { board := board3
    currentPlayer := nextPlayer
    selectedSquare := none
    legalMoves := []
    moveHistory := gameState.moveHistory ++ [move]
    capturedPieces := capturedPieces2
    isCheck := isCheck
    isCheckmate := isCheck && !hasLegalMoves
    isStalemate := !isCheck && !hasLegalMoves
    lastMove := some move
    enPassantTarget := newEnPassantTarget
    castlingRights := cr2 }

def makeMove (gameState : GameState) (fromP toP : Position) : Option GameState :=
  match getPieceAt gameState.board fromP with
  | none => none
  | some piece =>
    if piece.color != gameState.currentPlayer then none
    else if !legalMoveMem gameState.board fromP gameState.enPassantTarget
        gameState.castlingRights toP then none
    else some (applyMove gameState fromP toP piece)

def shouldPromotePawn (board : Board) (pos : Position) : Bool :=
  match getPieceAt board pos with
  | none => false
  | some piece =>
    piece.type == pawn &&
      ((piece.color == white && pos.row == 0) || (piece.color == black && pos.row == 7))

def promotePawn (gameState : GameState) (pos : Position) (promoteTo : PieceType) : GameState :=
  let newBoard :=
    match cellAt gameState.board pos.row pos.col with
    | some piece => setCell gameState.board pos.row pos.col (some { piece with type := promoteTo })
    | none => gameState.board
  { gameState with board := newBoard }

def initialGameState : GameState :=
  { board := createInitialBoard
    currentPlayer := white
    selectedSquare := none
    legalMoves := []
    moveHistory := []
    capturedPieces := { white := [], black := [] }
    isCheck := false
    isCheckmate := false
    isStalemate := false
    lastMove := none
    enPassantTarget := none
    castlingRights :=
      { whiteKingSide := true, whiteQueenSide := true
        blackKingSide := true, blackQueenSide := true } }

/-! ### Evaluation function (`PIECE_VALUES`, piece-square tables, `evaluateBoard`) -/

def pieceValue : PieceType → Int
  | pawn => 100
  | knight => 320
  | bishop => 330
  | rook => 500
  | queen => 900
  | king => 20000

def PAWN_TABLE : List (List Int) :=
  [ [0, 0, 0, 0, 0, 0, 0, 0]
  , [50, 50, 50, 50, 50, 50, 50, 50]
  , [10, 10, 20, 30, 30, 20, 10, 10]
  , [5, 5, 10, 25, 25, 10, 5, 5]
  , [0, 0, 0, 20, 20, 0, 0, 0]
  , [5, -5, -10, 0, 0, -10, -5, 5]
  , [5, 10, 10, -20, -20, 10, 10, 5]
  , [0, 0, 0, 0, 0, 0, 0, 0] ]

def KNIGHT_TABLE : List (List Int) :=
  [ [-50, -40, -30, -30, -30, -30, -40, -50]
  , [-40, -20, 0, 0, 0, 0, -20, -40]
  , [-30, 0, 10, 15, 15, 10, 0, -30]
  , [-30, 5, 15, 20, 20, 15, 5, -30]
  , [-30, 0, 15, 20, 20, 15, 0, -30]
  , [-30, 5, 10, 15, 15, 10, 5, -30]
  , [-40, -20, 0, 5, 5, 0, -20, -40]
  , [-50, -40, -30, -30, -30, -30, -40, -50] ]

def BISHOP_TABLE : List (List Int) :=
  [ [-20, -10, -10, -10, -10, -10, -10, -20]
  , [-10, 0, 0, 0, 0, 0, 0, -10]
  , [-10, 0, 5, 10, 10, 5, 0, -10]
  , [-10, 5, 5, 10, 10, 5, 5, -10]
  , [-10, 0, 10, 10, 10, 10, 0, -10]
  , [-10, 10, 10, 10, 10, 10, 10, -10]
  , [-10, 5, 0, 0, 0, 0, 5, -10]
  , [-20, -10, -10, -10, -10, -10, -10, -20] ]

def ROOK_TABLE : List (List Int) :=
  [ [0, 0, 0, 0, 0, 0, 0, 0]
  , [5, 10, 10, 10, 10, 10, 10, 5]
  , [-5, 0, 0, 0, 0, 0, 0, -5]
  , [-5, 0, 0, 0, 0, 0, 0, -5]
  , [-5, 0, 0, 0, 0, 0, 0, -5]
  , [-5, 0, 0, 0, 0, 0, 0, -5]
  , [-5, 0, 0, 0, 0, 0, 0, -5]
  , [0, 0, 0, 5, 5, 0, 0, 0] ]

def QUEEN_TABLE : List (List Int) :=
  [ [-20, -10, -10, -5, -5, -10, -10, -20]
  , [-10, 0, 0, 0, 0, 0, 0, -10]
  , [-10, 0, 5, 5, 5, 5, 0, -10]
  , [-5, 0, 5, 5, 5, 5, 0, -5]
  , [0, 0, 5, 5, 5, 5, 0, -5]
  , [-10, 5, 5, 5, 5, 5, 0, -10]
  , [-10, 0, 5, 0, 0, 0, 0, -10]
  , [-20, -10, -10, -5, -5, -10, -10, -20] ]

def KING_TABLE : List (List Int) :=
  [ [-30, -40, -40, -50, -50, -40, -40, -30]
  , [-30, -40, -40, -50, -50, -40, -40, -30]
  , [-30, -40, -40, -50, -50, -40, -40, -30]
  , [-30, -40, -40, -50, -50, -40, -40, -30]
  , [-20, -30, -30, -40, -40, -30, -30, -20]
  , [-10, -20, -20, -20, -20, -20, -20, -10]
  , [20, 20, 0, 0, 0, 0, 20, 20]
  , [20, 30, 10, 0, 0, 10, 30, 20] ]

def tableFor : PieceType → List (List Int)
  | pawn => PAWN_TABLE
  | knight => KNIGHT_TABLE
  | bishop => BISHOP_TABLE
  | rook => ROOK_TABLE
  | queen => QUEEN_TABLE
  | king => KING_TABLE

def getPieceSquareValue (piece : Piece) (row col : Int) : Int :=
  let adjustedRow := if piece.color == white then row else 7 - row
  ((tableFor piece.type).getD adjustedRow.toNat []).getD col.toNat 0

def evaluateBoard (board : Board) : Int :=
  allSquares.foldl
    (fun score sq =>
      match cellAt board sq.row sq.col with
      | some piece =>
        let totalValue := pieceValue piece.type + getPieceSquareValue piece sq.row sq.col
        if piece.color == black then score + totalValue else score - totalValue
      | none => score)
    0

/-! ### Minimax search with alpha-beta pruning

JavaScript scores live in the extended reals: the loops start from
`-Infinity`/`Infinity`.  `Score` is `Int` extended with the two infinities. -/

inductive Score where
  | negInf
  | num (n : Int)
  | posInf
deriving DecidableEq, Repr

def scoreLt : Score → Score → Bool
  | Score.negInf, Score.negInf => false
  | Score.negInf, _ => true
  | Score.num _, Score.negInf => false
  | Score.num a, Score.num b => a < b
  | Score.num _, Score.posInf => true
  | Score.posInf, _ => false

/-- `a <= b` on JavaScript numbers with infinities. -/
def scoreLe (a b : Score) : Bool := !(scoreLt b a)

/-- `Math.max` on scores. -/
def scoreMax (a b : Score) : Score := if scoreLt a b then b else a

/-- `Math.min` on scores. -/
def scoreMin (a b : Score) : Score := if scoreLt b a then a else b

/-- A `{from, to}` move record of the search (`Move` without metadata). -/
structure SimpleMove where
  fromPos : Position
  toPos : Position
deriving DecidableEq, Repr

/-- The score the leaf branch of `minimax` produces (depth 0 or a terminal
position): static evaluation, overridden by the checkmate/stalemate scores,
then the in-check adjustment. -/
def minimaxLeaf (gameState : GameState) (maximizingPlayer : Bool) : Int :=
  let score0 := evaluateBoard gameState.board
  let score1 :=
    if gameState.isCheckmate then (if maximizingPlayer then -50000 else 50000)
    else if gameState.isStalemate then 0
    else score0
  score1 + (if gameState.isCheck then (if maximizingPlayer then -50 else 50) else 0)

/-- The move enumeration of `minimax`: every legal move of the current player,
scanning the board in row-major order. -/
def collectAllMoves (gameState : GameState) : List SimpleMove :=
  allSquares.flatMap (fun sq =>
    match getPieceAt gameState.board sq with
    | some piece =>
      if piece.color == gameState.currentPlayer then
        (getLegalMoves gameState.board sq gameState.enPassantTarget
            gameState.castlingRights).map (fun toP => ⟨sq, toP⟩)
      else []
    | none => [])

/-- `allMoves.sort((a, b) => captureB - captureA)`: a stable sort on the
one-bit key "destination occupied", i.e. captures first, original order
preserved within each class. -/
def sortMovesCapturesFirst (gameState : GameState) (moves : List SimpleMove) :
    List SimpleMove :=
  let isCapture := fun (m : SimpleMove) => (getPieceAt gameState.board m.toPos).isSome
  moves.filter isCapture ++ moves.filter (fun m => !(isCapture m))

/-- The maximizing `for` loop of `minimax`.  `recurse g a` is the score of the
one-ply-deeper search of `g` with alpha `a` (beta is fixed in the loop).
Arguments after the move list: current alpha, current `maxScore`, current
`bestMove`.  The `break` on `beta <= alpha` returns early. -/
def maximizeGo (gameState : GameState) (recurse : GameState → Score → Score) (beta : Score) :
    List SimpleMove → Score → Score → Option SimpleMove → Score × Option SimpleMove
  | [], _, maxScore, bestMove => (maxScore, bestMove)
  | move :: rest, alpha, maxScore, bestMove =>
    match makeMove gameState move.fromPos move.toPos with
    | none => maximizeGo gameState recurse beta rest alpha maxScore bestMove
    | some newGameState =>
      let s := recurse newGameState alpha
      let maxScore2 := if scoreLt maxScore s then s else maxScore
      let bestMove2 := if scoreLt maxScore s then some move else bestMove
      let alpha2 := scoreMax alpha s
      if scoreLe beta alpha2 then (maxScore2, bestMove2)
      else maximizeGo gameState recurse beta rest alpha2 maxScore2 bestMove2

/-- The minimizing `for` loop of `minimax`. -/
def minimizeGo (gameState : GameState) (recurse : GameState → Score → Score) (alpha : Score) :
    List SimpleMove → Score → Score → Option SimpleMove → Score × Option SimpleMove
  | [], _, minScore, bestMove => (minScore, bestMove)
  | move :: rest, beta, minScore, bestMove =>
    match makeMove gameState move.fromPos move.toPos with
    | none => minimizeGo gameState recurse alpha rest beta minScore bestMove
    | some newGameState =>
      let s := recurse newGameState beta
      let minScore2 := if scoreLt s minScore then s else minScore
      let bestMove2 := if scoreLt s minScore then some move else bestMove
      let beta2 := scoreMin beta s
      if scoreLe beta2 alpha then (minScore2, bestMove2)
      else minimizeGo gameState recurse alpha rest beta2 minScore2 bestMove2

/-- `minimax(gameState, depth, alpha, beta, maximizingPlayer)`.  The recursion
is on `depth`, which strictly decreases from each node to its children. -/
def minimax : Nat → GameState → Score → Score → Bool → Score × Option SimpleMove
  | 0, gameState, _, _, maximizingPlayer =>
    (Score.num (minimaxLeaf gameState maximizingPlayer), none)
  | depth + 1, gameState, alpha, beta, maximizingPlayer =>
    if gameState.isCheckmate || gameState.isStalemate then
      (Score.num (minimaxLeaf gameState maximizingPlayer), none)
    else
      let allMoves := sortMovesCapturesFirst gameState (collectAllMoves gameState)
      if maximizingPlayer then
        maximizeGo gameState (fun g a => (minimax depth g a beta false).1) beta
          allMoves alpha Score.negInf none
      else
        minimizeGo gameState (fun g b => (minimax depth g alpha b true).1) alpha
          allMoves beta Score.posInf none

def getBestMove (gameState : GameState) (depth : Nat) : Option SimpleMove :=
  (minimax depth gameState Score.negInf Score.posInf true).2

/-! ### Specification-side companions of the maximizing root loop, used to
state the tie-breaking behaviour of the search. -/

/-- The scores the maximizing loop computes for the successive (applicable)
moves, with the alpha value threaded exactly as the loop threads it. -/
def scoreTrace (gameState : GameState) (recurse : GameState → Score → Score) :
    List SimpleMove → Score → List (SimpleMove × Score)
  | [], _ => []
  | move :: rest, alpha =>
    match makeMove gameState move.fromPos move.toPos with
    | none => scoreTrace gameState recurse rest alpha
    | some newGameState =>
      let s := recurse newGameState alpha
      (move, s) :: scoreTrace gameState recurse rest (scoreMax alpha s)

/-- Prune-free reference fold: keep the first strict improvement over the
running best score; an equal score never replaces the incumbent. -/
def foldPick : List (SimpleMove × Score) → Score → Option SimpleMove →
    Score × Option SimpleMove
  | [], maxScore, bestMove => (maxScore, bestMove)
  | (move, s) :: rest, maxScore, bestMove =>
    if scoreLt maxScore s then foldPick rest s (some move)
    else foldPick rest maxScore bestMove

/-- The running maximum of the traced scores. -/
def traceMax (trace : List (SimpleMove × Score)) (m0 : Score) : Score :=
  trace.foldl (fun acc p => scoreMax acc p.2) m0

/-- The first traced move attaining a given score. -/
def firstAttainer (trace : List (SimpleMove × Score)) (target : Score) : Option SimpleMove :=
  (trace.find? (fun p => p.2 == target)).map (fun p => p.1)

/-! ### Lemmas about board reads and writes -/

theorem getD_set_self (l : List (Option Piece)) (j : Nat) (v : Option Piece)
    (hj : j < l.length) : (l.set j v).getD j none = v := by
  rw [List.getD_eq_getElem?_getD, List.getElem?_set_self hj]
  rfl

theorem getD_set_ne (l : List (Option Piece)) (i j : Nat) (v : Option Piece)
    (h : i ≠ j) : (l.set i v).getD j none = l.getD j none := by
  rw [List.getD_eq_getElem?_getD, List.getElem?_set_ne h, ← List.getD_eq_getElem?_getD]

theorem rowD_set_self (b : Board) (i : Nat) (row : List (Option Piece))
    (hi : i < b.length) : (b.set i row).getD i [] = row := by
  rw [List.getD_eq_getElem?_getD, List.getElem?_set_self hi]
  rfl

theorem rowD_set_ne (b : Board) (i j : Nat) (row : List (Option Piece))
    (h : i ≠ j) : (b.set i row).getD j [] = b.getD j [] := by
  rw [List.getD_eq_getElem?_getD, List.getElem?_set_ne h, ← List.getD_eq_getElem?_getD]

theorem setCell_of_neg (b : Board) (r c : Int) (v : Option Piece) (h : r < 0 ∨ c < 0) :
    setCell b r c v = b := by
  unfold setCell
  rw [if_pos]
  rcases h with h | h <;> simp [h]

theorem setCell_of_nonneg (b : Board) (r c : Int) (v : Option Piece)
    (hr : 0 ≤ r) (hc : 0 ≤ c) :
    setCell b r c v = b.set r.toNat ((b.getD r.toNat []).set c.toNat v) := by
  unfold setCell
  rw [if_neg]
  simp
  omega

theorem cellAt_of_neg (b : Board) (r c : Int) (h : r < 0 ∨ c < 0) :
    cellAt b r c = none := by
  unfold cellAt
  rw [if_pos]
  rcases h with h | h <;> simp [h]

theorem cellAt_of_nonneg (b : Board) (r c : Int) (hr : 0 ≤ r) (hc : 0 ≤ c) :
    cellAt b r c = (b.getD r.toNat []).getD c.toNat none := by
  unfold cellAt
  rw [if_neg]
  simp
  omega

theorem setCell_comm (b : Board) (r1 c1 r2 c2 : Int) (v w : Option Piece)
    (h : r1 ≠ r2 ∨ c1 ≠ c2) :
    setCell (setCell b r1 c1 v) r2 c2 w = setCell (setCell b r2 c2 w) r1 c1 v := by
  by_cases h1 : r1 < 0 ∨ c1 < 0
  · rw [setCell_of_neg _ _ _ _ h1, setCell_of_neg _ _ _ _ h1]
  · by_cases h2 : r2 < 0 ∨ c2 < 0
    · rw [setCell_of_neg _ _ _ _ h2, setCell_of_neg _ _ _ _ h2]
    · push_neg at h1 h2
      obtain ⟨hr1, hc1⟩ := h1
      obtain ⟨hr2, hc2⟩ := h2
      rw [setCell_of_nonneg _ _ _ _ hr1 hc1, setCell_of_nonneg _ _ _ _ hr2 hc2,
        setCell_of_nonneg _ _ _ _ hr2 hc2, setCell_of_nonneg _ _ _ _ hr1 hc1]
      by_cases hrow : r1.toNat = r2.toNat
      · have hreq : r1 = r2 := by omega
        have hcol : c1.toNat ≠ c2.toNat := by
          rcases h with h | h
          · exact absurd hreq h
          · omega
        subst hreq
        by_cases hlen : r1.toNat < b.length
        · rw [rowD_set_self _ _ _ hlen, rowD_set_self _ _ _ hlen, List.set_set, List.set_set,
            List.set_comm _ _ _ hcol]
        · have hle : b.length ≤ r1.toNat := Nat.le_of_not_lt hlen
          simp [List.set_eq_of_length_le hle]
      · rw [rowD_set_ne _ _ _ _ hrow, rowD_set_ne _ _ _ _ (Ne.symm hrow),
          List.set_comm _ _ _ hrow]

theorem setCell_setCell_same (b : Board) (r c : Int) (v w : Option Piece) :
    setCell (setCell b r c v) r c w = setCell b r c w := by
  by_cases h1 : r < 0 ∨ c < 0
  · simp [setCell_of_neg _ _ _ _ h1]
  · push_neg at h1
    obtain ⟨hr, hc⟩ := h1
    rw [setCell_of_nonneg _ _ _ _ hr hc, setCell_of_nonneg _ _ _ _ hr hc,
      setCell_of_nonneg _ _ _ _ hr hc]
    by_cases hlen : r.toNat < b.length
    · rw [rowD_set_self _ _ _ hlen, List.set_set, List.set_set]
    · have hle : b.length ≤ r.toNat := Nat.le_of_not_lt hlen
      simp [List.set_eq_of_length_le hle]

theorem cellAt_setCell_ne (b : Board) (r1 c1 r2 c2 : Int) (v : Option Piece)
    (h : r1 ≠ r2 ∨ c1 ≠ c2) :
    cellAt (setCell b r1 c1 v) r2 c2 = cellAt b r2 c2 := by
  by_cases h1 : r1 < 0 ∨ c1 < 0
  · rw [setCell_of_neg _ _ _ _ h1]
  · by_cases h2 : r2 < 0 ∨ c2 < 0
    · rw [cellAt_of_neg _ _ _ h2, cellAt_of_neg _ _ _ h2]
    · push_neg at h1 h2
      obtain ⟨hr1, hc1⟩ := h1
      obtain ⟨hr2, hc2⟩ := h2
      rw [setCell_of_nonneg _ _ _ _ hr1 hc1, cellAt_of_nonneg _ _ _ hr2 hc2,
        cellAt_of_nonneg _ _ _ hr2 hc2]
      by_cases hrow : r1.toNat = r2.toNat
      · have hreq : r1 = r2 := by omega
        have hcol : c1.toNat ≠ c2.toNat := by
          rcases h with h | h
          · exact absurd hreq h
          · omega
        subst hreq
        by_cases hlen : r1.toNat < b.length
        · rw [rowD_set_self _ _ _ hlen, getD_set_ne _ _ _ _ hcol]
        · have hle : b.length ≤ r1.toNat := Nat.le_of_not_lt hlen
          rw [List.set_eq_of_length_le hle]
      · rw [rowD_set_ne _ _ _ _ hrow]

/-- A cell known to hold something is inside the stored lists, so writing to
it is visible when reading it back. -/
theorem cellAt_setCell_self (b : Board) (r c : Int) (v : Option Piece)
    (h : cellAt b r c ≠ none) :
    cellAt (setCell b r c v) r c = v := by
  by_cases h1 : r < 0 ∨ c < 0
  · exact absurd (cellAt_of_neg _ _ _ h1) h
  · push_neg at h1
    obtain ⟨hr, hc⟩ := h1
    rw [cellAt_of_nonneg _ _ _ hr hc] at h
    rw [setCell_of_nonneg _ _ _ _ hr hc, cellAt_of_nonneg _ _ _ hr hc]
    by_cases hlen : r.toNat < b.length
    · rw [rowD_set_self _ _ _ hlen]
      apply getD_set_self
      by_contra hcol
      have hle : (b.getD r.toNat []).length ≤ c.toNat := Nat.le_of_not_lt hcol
      rw [List.getD_eq_getElem?_getD, List.getElem?_eq_none hle] at h
      exact h rfl
    · exfalso
      have hle : b.length ≤ r.toNat := Nat.le_of_not_lt hlen
      have hrow : b.getD r.toNat [] = [] := by
        rw [List.getD_eq_getElem?_getD, List.getElem?_eq_none hle]
        rfl
      rw [hrow] at h
      simp at h

/-! ### Characterization of `makeMove`'s legality gate -/

theorem position_eq_iff (p q : Position) : p = q ↔ p.row = q.row ∧ p.col = q.col := by
  cases p
  cases q
  simp

theorem getPieceAt_eq_some {board : Board} {pos : Position} {p : Piece}
    (h : getPieceAt board pos = some p) :
    isValidPosition pos = true ∧ cellAt board pos.row pos.col = some p := by
  unfold getPieceAt at h
  by_cases hv : isValidPosition pos = true
  · rw [if_pos hv] at h
    exact ⟨hv, h⟩
  · rw [if_neg hv] at h
    exact absurd h (by simp)

theorem legalMoveMem_iff {board : Board} {fromP : Position} {ep : Option Position}
    {cr : CastlingRights} {toP : Position} :
    legalMoveMem board fromP ep cr toP = true ↔ toP ∈ getLegalMoves board fromP ep cr := by
  unfold legalMoveMem
  rw [List.any_eq_true]
  constructor
  · rintro ⟨m, hm, he⟩
    have hmt : m = toP := by
      rw [position_eq_iff]
      simpa using he
    rw [hmt] at hm
    exact hm
  · intro h
    exact ⟨toP, h, by simp⟩

theorem makeMove_eq_some {s : GameState} {fromP toP : Position} {p : Piece}
    (hg : getPieceAt s.board fromP = some p)
    (hc : p.color = s.currentPlayer)
    (hm : legalMoveMem s.board fromP s.enPassantTarget s.castlingRights toP = true) :
    makeMove s fromP toP = some (applyMove s fromP toP p) := by
  unfold makeMove
  rw [hg]
  simp [hc, hm]

theorem makeMove_eq_some_elim {s : GameState} {fromP toP : Position} {s2 : GameState}
    (h : makeMove s fromP toP = some s2) :
    ∃ p, getPieceAt s.board fromP = some p ∧ p.color = s.currentPlayer ∧
      legalMoveMem s.board fromP s.enPassantTarget s.castlingRights toP = true ∧
      s2 = applyMove s fromP toP p := by
  unfold makeMove at h
  cases hg : getPieceAt s.board fromP with
  | none => rw [hg] at h; simp at h
  | some p =>
    rw [hg] at h
    by_cases hc : p.color = s.currentPlayer
    · by_cases hm : legalMoveMem s.board fromP s.enPassantTarget s.castlingRights toP = true
      · simp only [hc, hm, bne_self_eq_false, Bool.false_eq_true, if_false, Bool.not_true,
          Option.some.injEq] at h
        exact ⟨p, rfl, hc, hm, h.symm⟩
      · have hm2 : legalMoveMem s.board fromP s.enPassantTarget s.castlingRights toP = false :=
          by simpa using hm
        simp [hc, hm2] at h
    · have hbne : (p.color != s.currentPlayer) = true := by simp [hc]
      simp [hbne] at h

theorem makeMove_eq_none {s : GameState} {fromP toP : Position}
    (h : getPieceAt s.board fromP = none ∨
      (∃ p, getPieceAt s.board fromP = some p ∧ p.color ≠ s.currentPlayer) ∨
      legalMoveMem s.board fromP s.enPassantTarget s.castlingRights toP = false) :
    makeMove s fromP toP = none := by
  cases hmk : makeMove s fromP toP with
  | none => rfl
  | some s2 =>
    exfalso
    obtain ⟨p, hg, hc, hm, _⟩ := makeMove_eq_some_elim hmk
    rcases h with h | ⟨q, hq, hqc⟩ | h
    · rw [h] at hg
      exact absurd hg (by simp)
    · rw [hq] at hg
      exact hqc ((Option.some.injEq _ _).mp hg ▸ hc)
    · rw [h] at hm
      exact absurd hm (by simp)

theorem mem_getLegalMoves_elim {board : Board} {fromP : Position} {ep : Option Position}
    {cr : CastlingRights} {toP : Position} {p : Piece}
    (hp : getPieceAt board fromP = some p)
    (h : toP ∈ getLegalMoves board fromP ep cr) :
    legalFilter board p ep fromP toP = true ∧
      toP ∈ (if p.type == king then
          getPseudoLegalMoves board fromP ep ++ castleMoves board p cr
        else getPseudoLegalMoves board fromP ep) := by
  unfold getLegalMoves at h
  rw [hp] at h
  have hmf := List.mem_filter.mp h
  exact ⟨hmf.2, hmf.1⟩

theorem epCaptureRow_ne_row (color : PieceColor) (toP : Position) :
    epCaptureRow color toP ≠ toP.row := by
  unfold epCaptureRow
  by_cases hc : (color == white) = true
  · rw [if_pos hc]
    omega
  · rw [if_neg hc]
    omega

/-- The board `applyMove` produces for a non-castling move equals the scratch
board the legality filter tested for that move. -/
theorem applyMove_board_eq_filterTestBoard (s : GameState) (fromP toP : Position) (p : Piece)
    (hcell : cellAt s.board fromP.row fromP.col = some p)
    (hnc : ¬(p.type = king ∧ (toP.col - fromP.col).natAbs = 2)) :
    (applyMove s fromP toP p).board =
      filterTestBoard s.board p s.enPassantTarget fromP toP := by
  have hcast : (p.type == king && (toP.col - fromP.col).natAbs == 2) = false := by
    rcases Decidable.em (p.type = king) with hk | hk
    · have h2 : (toP.col - fromP.col).natAbs ≠ 2 := fun h2 => hnc ⟨hk, h2⟩
      simp [h2]
    · simp [hk]
  unfold applyMove filterTestBoard
  simp only [hcast, Bool.false_eq_true, if_false, hcell, ite_false]
  by_cases hep : isEpCapture p s.enPassantTarget toP = true
  · simp only [hep, if_true, ite_true]
    have hrt : epCaptureRow p.color toP ≠ toP.row := epCaptureRow_ne_row p.color toP
    by_cases hef : epCaptureRow p.color toP = fromP.row ∧ toP.col = fromP.col
    · obtain ⟨he1, he2⟩ := hef
      have htf : toP.row ≠ fromP.row := fun hh => hrt (he1.trans hh.symm)
      rw [he1, he2]
      rw [setCell_comm s.board fromP.row fromP.col toP.row fromP.col none (some p)
        (Or.inl (Ne.symm htf))]
    · have hne : fromP.row ≠ epCaptureRow p.color toP ∨ fromP.col ≠ toP.col := by
        by_cases h1 : fromP.row = epCaptureRow p.color toP
        · right
          intro h2
          exact hef ⟨h1.symm, h2.symm⟩
        · left
          exact h1
      rw [setCell_comm (setCell s.board toP.row toP.col (some p)) fromP.row fromP.col
        (epCaptureRow p.color toP) toP.col none none hne]
      rw [setCell_comm s.board toP.row toP.col (epCaptureRow p.color toP) toP.col
        (some p) none (Or.inl (Ne.symm hrt))]
  · have hep2 : isEpCapture p s.enPassantTarget toP = false := by simpa using hep
    simp only [hep2, Bool.false_eq_true, if_false, ite_false]

/-! ### Concrete fixtures used by witnesses and counterexamples -/

def emptyRow : List (Option Piece) := List.replicate 8 none

def emptyBoard : Board := List.replicate 8 emptyRow

def boardOf (pieces : List (Int × Int × Piece)) : Board :=
  pieces.foldl (fun b q => setCell b q.1 q.2.1 (some q.2.2)) emptyBoard

def allRights : CastlingRights :=
  { whiteKingSide := true, whiteQueenSide := true
    blackKingSide := true, blackQueenSide := true }

def noRights : CastlingRights :=
  { whiteKingSide := false, whiteQueenSide := false
    blackKingSide := false, blackQueenSide := false }

def mkState (b : Board) (cp : PieceColor) (cr : CastlingRights) : GameState :=
  { board := b
    currentPlayer := cp
    selectedSquare := none
    legalMoves := []
    moveHistory := []
    capturedPieces := { white := [], black := [] }
    isCheck := false
    isCheckmate := false
    isStalemate := false
    lastMove := none
    enPassantTarget := none
    castlingRights := cr }

/-! ### Claim C1: legality round-trip -/

/-- `makeMove` succeeds and leaves the mover's own king out of check — the
right-hand side of the round-trip stated by the specification. -/
def moveSafe (s : GameState) (fromP toP : Position) : Bool :=
  match makeMove s fromP toP with
  | none => false
  | some s2 => !(isInCheck s2.board s.currentPlayer)

/-- White to move; white king on e1, black king on a1, queenside rights set.
`getLegalMoves` offers the castling destination c1, but `makeMove` then
relocates the *black king* (the content of the rook home square a1) to d1,
leaving white's king in check on the resulting board. -/
def c1state : GameState :=
  mkState (boardOf [(7, 4, ⟨king, white⟩), (7, 0, ⟨king, black⟩)]) white allRights

/-- Claim C1, as stated, is false: in `c1state` the destination c1 is in the
legal-move set of e1 (for the side to move), yet the state `makeMove` returns
has the moving side's king in check. -/
theorem c1_roundtrip_counterexample :
    getPieceAt c1state.board ⟨7, 4⟩ = some ⟨king, white⟩ ∧
    c1state.currentPlayer = white ∧
    legalMoveMem c1state.board ⟨7, 4⟩ c1state.enPassantTarget c1state.castlingRights
      ⟨7, 2⟩ = true ∧
    moveSafe c1state ⟨7, 4⟩ ⟨7, 2⟩ = false ∧
    ¬(legalMoveMem c1state.board ⟨7, 4⟩ c1state.enPassantTarget c1state.castlingRights
        ⟨7, 2⟩ = moveSafe c1state ⟨7, 4⟩ ⟨7, 2⟩) := by
  decide

/-- Claim C1 (amended): when the square `fromP` holds a piece of the side to
move, a destination is in the legal-move set iff `makeMove` succeeds; and
whenever `makeMove` succeeds on a non-castling move (the moved piece is not a
king travelling two columns), the moving side's king is not in check in the
resulting state.  (For castling moves the rook-relocation step can, on
pathological boards such as `c1state`, re-expose the king, which is why the
second part excludes them.) -/
theorem c1_legality_roundtrip_amended (s : GameState) (fromP toP : Position) (p : Piece)
    (hp : getPieceAt s.board fromP = some p) (hc : p.color = s.currentPlayer) :
    (legalMoveMem s.board fromP s.enPassantTarget s.castlingRights toP = true ↔
      (makeMove s fromP toP).isSome = true) ∧
    (∀ s2, makeMove s fromP toP = some s2 →
      ¬(p.type = king ∧ (toP.col - fromP.col).natAbs = 2) →
      isInCheck s2.board s.currentPlayer = false) := by
  constructor
  · constructor
    · intro hm
      rw [makeMove_eq_some hp hc hm]
      rfl
    · intro hs
      cases hmk : makeMove s fromP toP with
      | none => rw [hmk] at hs; simp at hs
      | some s2 =>
        obtain ⟨q, _, _, hm, _⟩ := makeMove_eq_some_elim hmk
        exact hm
  · intro s2 hmk hnc
    obtain ⟨q, hgq, hqc, hm, hs2⟩ := makeMove_eq_some_elim hmk
    have hq : q = p := by
      rw [hp] at hgq
      exact ((Option.some.injEq _ _).mp hgq).symm
    subst hq
    have hvalid := getPieceAt_eq_some hp
    have hboard : s2.board = filterTestBoard s.board q s.enPassantTarget fromP toP := by
      rw [hs2]
      exact applyMove_board_eq_filterTestBoard s fromP toP q hvalid.2 hnc
    have hmem : toP ∈ getLegalMoves s.board fromP s.enPassantTarget s.castlingRights :=
      legalMoveMem_iff.mp hm
    have hfil := (mem_getLegalMoves_elim hp hmem).1
    unfold legalFilter at hfil
    rw [hboard, ← hc]
    simpa using hfil

/-- Witness for the amended C1 at a concrete input: white's pawn move
e2-e4 in the initial position. -/
theorem c1_legality_roundtrip_amended_witness :
    (legalMoveMem initialGameState.board ⟨6, 4⟩ initialGameState.enPassantTarget
        initialGameState.castlingRights ⟨4, 4⟩ = true ↔
      (makeMove initialGameState ⟨6, 4⟩ ⟨4, 4⟩).isSome = true) ∧
    (∀ s2, makeMove initialGameState ⟨6, 4⟩ ⟨4, 4⟩ = some s2 →
      ¬((⟨pawn, white⟩ : Piece).type = king ∧ ((4 : Int) - 4).natAbs = 2) →
      isInCheck s2.board initialGameState.currentPlayer = false) :=
  c1_legality_roundtrip_amended initialGameState ⟨6, 4⟩ ⟨4, 4⟩ ⟨pawn, white⟩
    (by decide) (by decide)

/-! ### Claim C4: the legality gate of `makeMove` -/

/-- Claim C4: if `fromP` holds no piece, or holds a piece that is not the
current player's, or the destination is not in the legal-move set, then
`makeMove` returns `null`.  (The input `GameState` is untouched by
construction: the embedding is pure, mirroring the source, which returns
before mutating anything.) -/
theorem c4_illegal_move_returns_null (s : GameState) (fromP toP : Position)
    (h : getPieceAt s.board fromP = none ∨
      (∃ p, getPieceAt s.board fromP = some p ∧ p.color ≠ s.currentPlayer) ∨
      legalMoveMem s.board fromP s.enPassantTarget s.castlingRights toP = false) :
    makeMove s fromP toP = none :=
  makeMove_eq_none h

/-- Witness for C4: moving from the empty square d5 in the initial position. -/
theorem c4_illegal_move_returns_null_witness :
    makeMove initialGameState ⟨3, 3⟩ ⟨4, 3⟩ = none :=
  c4_illegal_move_returns_null initialGameState ⟨3, 3⟩ ⟨4, 3⟩ (Or.inl (by decide))

/-! ### Claim C5: the en-passant target of successor states -/

/-- Claim C5: after every successful `makeMove`, the new `enPassantTarget` is
the midpoint of the move just played iff that move was a pawn moving two rows,
and `null` otherwise — so a target never persists past one ply. -/
theorem c5_en_passant_target (s : GameState) (fromP toP : Position) (p : Piece)
    (s2 : GameState)
    (hmk : makeMove s fromP toP = some s2)
    (hp : getPieceAt s.board fromP = some p) :
    (p.type = pawn ∧ (toP.row - fromP.row).natAbs = 2 →
      s2.enPassantTarget = some ⟨(fromP.row + toP.row) / 2, fromP.col⟩) ∧
    (¬(p.type = pawn ∧ (toP.row - fromP.row).natAbs = 2) →
      s2.enPassantTarget = none) := by
  obtain ⟨q, hgq, hqc, hm, hs2⟩ := makeMove_eq_some_elim hmk
  have hq : q = p := by
    rw [hp] at hgq
    exact ((Option.some.injEq _ _).mp hgq).symm
  subst hq
  subst hs2
  constructor
  · rintro ⟨h1, h2⟩
    simp [applyMove, h1, h2]
  · intro hneg
    have hfalse : (q.type == pawn && (toP.row - fromP.row).natAbs == 2) = false := by
      rcases Decidable.em (q.type = pawn) with hk | hk
      · have h2 : (toP.row - fromP.row).natAbs ≠ 2 := fun h2 => hneg ⟨hk, h2⟩
        simp [h2]
      · simp [hk]
    simp [applyMove, hfalse]

/-- Witness for C5: the double advance e2-e4 sets the target to e3. -/
theorem c5_en_passant_target_witness :
    ((⟨pawn, white⟩ : Piece).type = pawn ∧ ((4 : Int) - 6).natAbs = 2 →
      (applyMove initialGameState ⟨6, 4⟩ ⟨4, 4⟩ ⟨pawn, white⟩).enPassantTarget =
        some ⟨(6 + 4 : Int) / 2, 4⟩) ∧
    (¬((⟨pawn, white⟩ : Piece).type = pawn ∧ ((4 : Int) - 6).natAbs = 2) →
      (applyMove initialGameState ⟨6, 4⟩ ⟨4, 4⟩ ⟨pawn, white⟩).enPassantTarget = none) :=
  c5_en_passant_target initialGameState ⟨6, 4⟩ ⟨4, 4⟩ ⟨pawn, white⟩
    (applyMove initialGameState ⟨6, 4⟩ ⟨4, 4⟩ ⟨pawn, white⟩) (by decide) (by decide)

/-! ### Claim C7: checkmate/stalemate flags of successor states -/

/-- Claim C7: in every state `makeMove` produces, `isCheckmate` and
`isStalemate` are never both set; either implies the new current player has no
legal moves; checkmate implies check and stalemate implies no check. -/
theorem c7_terminal_flags (s : GameState) (fromP toP : Position) (s2 : GameState)
    (hmk : makeMove s fromP toP = some s2) :
    ¬(s2.isCheckmate = true ∧ s2.isStalemate = true) ∧
    ((s2.isCheckmate = true ∨ s2.isStalemate = true) →
      checkHasLegalMoves s2.board s2.currentPlayer s2.enPassantTarget
        s2.castlingRights = false) ∧
    (s2.isCheckmate = true → s2.isCheck = true) ∧
    (s2.isStalemate = true → s2.isCheck = false) := by
  obtain ⟨p, _, _, _, hs2⟩ := makeMove_eq_some_elim hmk
  subst hs2
  have e1 : (applyMove s fromP toP p).isCheckmate =
      ((applyMove s fromP toP p).isCheck &&
        !(checkHasLegalMoves (applyMove s fromP toP p).board
          (applyMove s fromP toP p).currentPlayer
          (applyMove s fromP toP p).enPassantTarget
          (applyMove s fromP toP p).castlingRights)) := rfl
  have e2 : (applyMove s fromP toP p).isStalemate =
      (!(applyMove s fromP toP p).isCheck &&
        !(checkHasLegalMoves (applyMove s fromP toP p).board
          (applyMove s fromP toP p).currentPlayer
          (applyMove s fromP toP p).enPassantTarget
          (applyMove s fromP toP p).castlingRights)) := rfl
  rw [e1, e2]
  cases hcb : (applyMove s fromP toP p).isCheck <;>
    cases hh : checkHasLegalMoves (applyMove s fromP toP p).board
      (applyMove s fromP toP p).currentPlayer
      (applyMove s fromP toP p).enPassantTarget
      (applyMove s fromP toP p).castlingRights <;>
    simp

/-- Witness for C7 at the concrete transition e2-e4 from the initial
position. -/
theorem c7_terminal_flags_witness :
    ¬((applyMove initialGameState ⟨6, 4⟩ ⟨4, 4⟩ ⟨pawn, white⟩).isCheckmate = true ∧
      (applyMove initialGameState ⟨6, 4⟩ ⟨4, 4⟩ ⟨pawn, white⟩).isStalemate = true) ∧
    (((applyMove initialGameState ⟨6, 4⟩ ⟨4, 4⟩ ⟨pawn, white⟩).isCheckmate = true ∨
      (applyMove initialGameState ⟨6, 4⟩ ⟨4, 4⟩ ⟨pawn, white⟩).isStalemate = true) →
      checkHasLegalMoves (applyMove initialGameState ⟨6, 4⟩ ⟨4, 4⟩ ⟨pawn, white⟩).board
        (applyMove initialGameState ⟨6, 4⟩ ⟨4, 4⟩ ⟨pawn, white⟩).currentPlayer
        (applyMove initialGameState ⟨6, 4⟩ ⟨4, 4⟩ ⟨pawn, white⟩).enPassantTarget
        (applyMove initialGameState ⟨6, 4⟩ ⟨4, 4⟩ ⟨pawn, white⟩).castlingRights = false) ∧
    ((applyMove initialGameState ⟨6, 4⟩ ⟨4, 4⟩ ⟨pawn, white⟩).isCheckmate = true →
      (applyMove initialGameState ⟨6, 4⟩ ⟨4, 4⟩ ⟨pawn, white⟩).isCheck = true) ∧
    ((applyMove initialGameState ⟨6, 4⟩ ⟨4, 4⟩ ⟨pawn, white⟩).isStalemate = true →
      (applyMove initialGameState ⟨6, 4⟩ ⟨4, 4⟩ ⟨pawn, white⟩).isCheck = false) :=
  c7_terminal_flags initialGameState ⟨6, 4⟩ ⟨4, 4⟩
    (applyMove initialGameState ⟨6, 4⟩ ⟨4, 4⟩ ⟨pawn, white⟩) (by decide)

/-! ### Claim C2: castling rights when a rook is captured -/

/-- Black to move: black's rook on h2 can capture white's rook on h1.  The
code clears castling flags only when the king or the rook itself moves, not
when the rook is captured. -/
def c2state : GameState :=
  mkState (boardOf [(7, 4, ⟨king, white⟩), (7, 7, ⟨rook, white⟩),
    (6, 7, ⟨rook, black⟩), (0, 4, ⟨king, black⟩)]) black allRights

/-- White king on e1, kingside rights still set although the h1 rook is gone
(as happens after a capture, since the code never clears flags on capture). -/
def c2ghost : GameState :=
  mkState (boardOf [(7, 4, ⟨king, white⟩), (0, 4, ⟨king, black⟩)]) white allRights

/-- Claim C2 fails on the code: capturing white's h1 rook leaves
`whiteKingSide` true in the successor state, although the spec says the flag
becomes false once that rook is captured.  As a consequence, a state like
`c2ghost` (rights intact, rook gone) still offers the castling destination g1
and `makeMove` "castles" with the missing rook. -/
theorem c2_rights_survive_rook_capture :
    getPieceAt c2state.board ⟨7, 7⟩ = some ⟨rook, white⟩ ∧
    (makeMove c2state ⟨6, 7⟩ ⟨7, 7⟩).map (fun s2 => getPieceAt s2.board ⟨7, 7⟩) =
      some (some ⟨rook, black⟩) ∧
    (makeMove c2state ⟨6, 7⟩ ⟨7, 7⟩).map (fun s2 => s2.castlingRights.whiteKingSide) =
      some true ∧
    getPieceAt c2ghost.board ⟨7, 7⟩ = none ∧
    legalMoveMem c2ghost.board ⟨7, 4⟩ c2ghost.enPassantTarget c2ghost.castlingRights
      ⟨7, 6⟩ = true ∧
    (makeMove c2ghost ⟨7, 4⟩ ⟨7, 6⟩).map (fun s2 => getPieceAt s2.board ⟨7, 6⟩) =
      some (some ⟨king, white⟩) := by
  decide

/-! ### Claim C3: leaf scores of the minimax search -/

/-- A genuine checkmate: white king h1, black queen g2 protected by the black
king h3; white to move with no legal reply.  The stored flags match the
board. -/
def c3state : GameState :=
  { mkState (boardOf [(7, 7, ⟨king, white⟩), (6, 6, ⟨queen, black⟩),
      (5, 7, ⟨king, black⟩)]) white noRights
    with isCheck := true, isCheckmate := true, isStalemate := false }

/-- Claim C3, as stated, is false: at a maximizing checkmate leaf the score is
`-50050`, not exactly `-50000` — the ±50 in-check adjustment is applied at
every leaf whose state is in check, terminal leaves included. -/
theorem c3_checkmate_leaf_counterexample :
    c3state.isCheckmate = true ∧ c3state.isCheck = true ∧
    isInCheck c3state.board white = true ∧
    checkHasLegalMoves c3state.board white none noRights = false ∧
    (minimax 0 c3state Score.negInf Score.posInf true).1 = Score.num (-50050) ∧
    Score.num (-50050) ≠ Score.num (-50000) := by
  decide

/-- Claim C3 (amended): a checkmate leaf that is in check (as every real
checkmate state is) scores `-50050` maximizing and `+50050` minimizing — the
±50000 mate score plus the in-check adjustment, which is applied at terminal
leaves too; a stalemate leaf not in check scores exactly 0; a non-terminal
depth-0 leaf scores the static evaluation plus the ±50 adjustment when in
check. -/
theorem c3_leaf_scores_amended :
    ∀ (g : GameState) (d : Nat) (alpha beta : Score) (maxi : Bool),
      (g.isCheckmate = true → g.isCheck = true →
        (minimax d g alpha beta maxi).1 = Score.num (if maxi then -50050 else 50050)) ∧
      (g.isStalemate = true → g.isCheckmate = false → g.isCheck = false →
        (minimax d g alpha beta maxi).1 = Score.num 0) ∧
      (g.isCheckmate = false → g.isStalemate = false →
        (minimax 0 g alpha beta maxi).1 =
          Score.num (evaluateBoard g.board +
            (if g.isCheck then (if maxi then -50 else 50) else 0))) := by
  intro g d alpha beta maxi
  refine ⟨?_, ?_, ?_⟩
  · intro hm hc
    cases d with
    | zero =>
      simp only [minimax, minimaxLeaf, hm, hc, if_true, ite_true]
      cases maxi <;> norm_num
    | succ d =>
      simp only [minimax, minimaxLeaf, hm, hc, Bool.true_or, if_true, ite_true]
      cases maxi <;> norm_num
  · intro hs hm hc
    cases d with
    | zero =>
      simp [minimax, minimaxLeaf, hm, hs, hc]
    | succ d =>
      simp [minimax, minimaxLeaf, hm, hs, hc]
  · intro hm hs
    simp [minimax, minimaxLeaf, hm, hs]

/-- Witness for the amended C3 at the concrete checkmate `c3state`. -/
theorem c3_leaf_scores_amended_witness :
    (minimax 0 c3state Score.negInf Score.posInf true).1 =
      Score.num (if true then -50050 else 50050) :=
  (c3_leaf_scores_amended c3state 0 Score.negInf Score.posInf true).1 rfl rfl

/-! ### Claim C9: the frame property of `promotePawn` -/

/-- Claim C9: promoting a pawn that stands on its promotion square replaces
only that square's piece type; every other square and every other field of the
`GameState` is unchanged. -/
theorem c9_promote_pawn_frame (s : GameState) (pos : Position) (t : PieceType) (p : Piece)
    (hp : getPieceAt s.board pos = some p)
    (hsp : shouldPromotePawn s.board pos = true) :
    (promotePawn s pos t).currentPlayer = s.currentPlayer ∧
    (promotePawn s pos t).selectedSquare = s.selectedSquare ∧
    (promotePawn s pos t).legalMoves = s.legalMoves ∧
    (promotePawn s pos t).moveHistory = s.moveHistory ∧
    (promotePawn s pos t).capturedPieces = s.capturedPieces ∧
    (promotePawn s pos t).isCheck = s.isCheck ∧
    (promotePawn s pos t).isCheckmate = s.isCheckmate ∧
    (promotePawn s pos t).isStalemate = s.isStalemate ∧
    (promotePawn s pos t).lastMove = s.lastMove ∧
    (promotePawn s pos t).enPassantTarget = s.enPassantTarget ∧
    (promotePawn s pos t).castlingRights = s.castlingRights ∧
    getPieceAt (promotePawn s pos t).board pos = some ⟨t, p.color⟩ ∧
    (∀ q : Position, q ≠ pos →
      getPieceAt (promotePawn s pos t).board q = getPieceAt s.board q) := by
  obtain ⟨hv, hcell⟩ := getPieceAt_eq_some hp
  have hboard : (promotePawn s pos t).board =
      setCell s.board pos.row pos.col (some { p with type := t }) := by
    unfold promotePawn
    rw [hcell]
  refine ⟨rfl, rfl, rfl, rfl, rfl, rfl, rfl, rfl, rfl, rfl, rfl, ?_, ?_⟩
  · unfold getPieceAt
    rw [if_pos hv, hboard,
      cellAt_setCell_self s.board pos.row pos.col _ (by rw [hcell]; simp)]
  · intro q hq
    by_cases hvq : isValidPosition q = true
    · unfold getPieceAt
      rw [if_pos hvq, if_pos hvq, hboard]
      apply cellAt_setCell_ne
      by_cases hr : pos.row = q.row
      · right
        intro hcq
        exact hq ((position_eq_iff q pos).mpr ⟨hr.symm, hcq.symm⟩)
      · left
        exact hr
    · unfold getPieceAt
      rw [if_neg hvq, if_neg hvq]

/-- Witness for C9: promoting white's a8 pawn to a queen. -/
def c9state : GameState :=
  mkState (boardOf [(7, 4, ⟨king, white⟩), (0, 0, ⟨pawn, white⟩),
    (0, 4, ⟨king, black⟩)]) white noRights

theorem c9_promote_pawn_frame_witness :
    (promotePawn c9state ⟨0, 0⟩ queen).currentPlayer = c9state.currentPlayer ∧
    (promotePawn c9state ⟨0, 0⟩ queen).selectedSquare = c9state.selectedSquare ∧
    (promotePawn c9state ⟨0, 0⟩ queen).legalMoves = c9state.legalMoves ∧
    (promotePawn c9state ⟨0, 0⟩ queen).moveHistory = c9state.moveHistory ∧
    (promotePawn c9state ⟨0, 0⟩ queen).capturedPieces = c9state.capturedPieces ∧
    (promotePawn c9state ⟨0, 0⟩ queen).isCheck = c9state.isCheck ∧
    (promotePawn c9state ⟨0, 0⟩ queen).isCheckmate = c9state.isCheckmate ∧
    (promotePawn c9state ⟨0, 0⟩ queen).isStalemate = c9state.isStalemate ∧
    (promotePawn c9state ⟨0, 0⟩ queen).lastMove = c9state.lastMove ∧
    (promotePawn c9state ⟨0, 0⟩ queen).enPassantTarget = c9state.enPassantTarget ∧
    (promotePawn c9state ⟨0, 0⟩ queen).castlingRights = c9state.castlingRights ∧
    getPieceAt (promotePawn c9state ⟨0, 0⟩ queen).board ⟨0, 0⟩ =
      some ⟨queen, white⟩ ∧
    (∀ q : Position, q ≠ ⟨0, 0⟩ →
      getPieceAt (promotePawn c9state ⟨0, 0⟩ queen).board q = getPieceAt c9state.board q) :=
  c9_promote_pawn_frame c9state ⟨0, 0⟩ queen ⟨pawn, white⟩ (by decide) (by decide)

/-! ### Claim C10: `promotePawn` performs no validation -/

/-- The number of pieces of a given type and color on the board. -/
def countPieces (board : Board) (t : PieceType) (c : PieceColor) : Nat :=
  allSquares.countP (fun sq => cellAt board sq.row sq.col == some ⟨t, c⟩)

/-- Claim C10: `promotePawn` accepts any occupied square and any target type,
including `king` — on `c9state` promoting the a8 pawn to a king yields two
white kings — and leaves the board unchanged when the (valid) square is
empty. -/
theorem c10_promote_pawn_unvalidated :
    (∀ (s : GameState) (pos : Position) (t : PieceType) (p : Piece),
      getPieceAt s.board pos = some p →
      getPieceAt (promotePawn s pos t).board pos = some ⟨t, p.color⟩) ∧
    countPieces (promotePawn c9state ⟨0, 0⟩ king).board king white = 2 ∧
    (∀ (s : GameState) (pos : Position) (t : PieceType),
      isValidPosition pos = true → getPieceAt s.board pos = none →
      (promotePawn s pos t).board = s.board) := by
  refine ⟨?_, by decide, ?_⟩
  · intro s pos t p hp
    obtain ⟨hv, hcell⟩ := getPieceAt_eq_some hp
    unfold getPieceAt promotePawn
    rw [hcell, if_pos hv,
      cellAt_setCell_self s.board pos.row pos.col _ (by rw [hcell]; simp)]
  · intro s pos t hv hp
    unfold promotePawn
    unfold getPieceAt at hp
    rw [if_pos hv] at hp
    rw [hp]

/-- Witness for C10's universally quantified parts at concrete inputs. -/
theorem c10_promote_pawn_unvalidated_witness :
    getPieceAt (promotePawn c9state ⟨0, 0⟩ king).board ⟨0, 0⟩ = some ⟨king, white⟩ ∧
    (promotePawn c9state ⟨3, 3⟩ queen).board = c9state.board :=
  ⟨c10_promote_pawn_unvalidated.1 c9state ⟨0, 0⟩ king ⟨pawn, white⟩ (by decide),
   c10_promote_pawn_unvalidated.2.2 c9state ⟨3, 3⟩ queen (by decide) (by decide)⟩

/-! ### Claim C6: necessary conditions for a castling destination -/

/-- The home rank of a color's king (`row` in `canCastle`). -/
def castleRow (color : PieceColor) : Int := if color == white then 7 else 0

/-- The column of the castling destination on each wing. -/
def castleDestCol : CastleSide → Int
  | CastleSide.kingside => 6
  | CastleSide.queenside => 2

/-- The castling-rights flag guarding a given color and wing. -/
def castleFlag (cr : CastlingRights) (color : PieceColor) : CastleSide → Bool
  | CastleSide.kingside => if color == white then cr.whiteKingSide else cr.blackKingSide
  | CastleSide.queenside => if color == white then cr.whiteQueenSide else cr.blackQueenSide

/-- The squares between king and rook are empty (condition (b) of the spec,
as `canCastle` tests it). -/
def betweenSquaresEmpty (board : Board) (color : PieceColor) : CastleSide → Bool
  | CastleSide.kingside =>
    !((cellAt board (castleRow color) 5).isSome || (cellAt board (castleRow color) 6).isSome)
  | CastleSide.queenside =>
    !((cellAt board (castleRow color) 1).isSome || (cellAt board (castleRow color) 2).isSome ||
      (cellAt board (castleRow color) 3).isSome)

/-- The square the king passes through is safe: `canCastle` tests it by
relocating the king there on a scratch board and asking for check. -/
def kingPassSafe (board : Board) (color : PieceColor) (side : CastleSide) : Bool :=
  let row := castleRow color
  let midCol : Int := match side with
    | CastleSide.kingside => 5
    | CastleSide.queenside => 3
  !(isInCheck (setCell (setCell board row midCol (cellAt board row 4)) row 4 none) color)

/-- The destination square is not attacked by the opponent (on the current
board, condition (d)). -/
def destNotAttacked (board : Board) (color : PieceColor) (side : CastleSide) : Bool :=
  !(isSquareUnderAttack board ⟨castleRow color, castleDestCol side⟩ (oppositeColor color))

theorem canCastle_eq_true_iff (board : Board) (color : PieceColor) (side : CastleSide) :
    canCastle board color side = true ↔
      isInCheck board color = false ∧
      betweenSquaresEmpty board color side = true ∧
      kingPassSafe board color side = true ∧
      destNotAttacked board color side = true := by
  unfold canCastle betweenSquaresEmpty kingPassSafe destNotAttacked castleRow castleDestCol
  cases side <;> split_ifs <;> simp_all

theorem mem_singleton_ite {b : Bool} {x y : Position} (h : y ∈ (if b = true then [x] else [])) :
    b = true ∧ y = x := by
  cases b
  · simp at h
  · simpa using h

/-- Destinations appended by the castling block of `getLegalMoves` all carry a
true rights flag and a successful `canCastle` test for their wing. -/
theorem mem_castleMoves_elim {board : Board} {p : Piece} {cr : CastlingRights} {toP : Position}
    (h : toP ∈ castleMoves board p cr) :
    ∃ side, toP = ⟨castleRow p.color, castleDestCol side⟩ ∧
      castleFlag cr p.color side = true ∧ canCastle board p.color side = true := by
  unfold castleMoves at h
  rw [List.mem_append] at h
  rcases h with h | h
  · rw [List.mem_append] at h
    rcases h with h | h
    · rw [List.mem_append] at h
      rcases h with h | h
      · obtain ⟨hc, hx⟩ := mem_singleton_ite h
        simp only [Bool.and_eq_true, beq_iff_eq] at hc
        refine ⟨CastleSide.kingside, ?_, ?_, hc.2⟩
        · rw [hx]
          simp [castleRow, castleDestCol, hc.1.1]
        · simp [castleFlag, hc.1.1, hc.1.2]
      · obtain ⟨hc, hx⟩ := mem_singleton_ite h
        simp only [Bool.and_eq_true, beq_iff_eq] at hc
        refine ⟨CastleSide.queenside, ?_, ?_, hc.2⟩
        · rw [hx]
          simp [castleRow, castleDestCol, hc.1.1]
        · simp [castleFlag, hc.1.1, hc.1.2]
    · obtain ⟨hc, hx⟩ := mem_singleton_ite h
      simp only [Bool.and_eq_true, beq_iff_eq] at hc
      refine ⟨CastleSide.kingside, ?_, ?_, hc.2⟩
      · rw [hx]
        simp [castleRow, castleDestCol, hc.1.1]
      · simp [castleFlag, hc.1.1, hc.1.2]
  · obtain ⟨hc, hx⟩ := mem_singleton_ite h
    simp only [Bool.and_eq_true, beq_iff_eq] at hc
    refine ⟨CastleSide.queenside, ?_, ?_, hc.2⟩
    · rw [hx]
      simp [castleRow, castleDestCol, hc.1.1]
    · simp [castleFlag, hc.1.1, hc.1.2]

/-- A pseudo-legal king move travels at most one row and one column. -/
theorem mem_getKingMoves_adjacent {board : Board} {fromP : Position} {color : PieceColor}
    {toP : Position} (h : toP ∈ getKingMoves board fromP color) :
    (toP.row - fromP.row).natAbs ≤ 1 ∧ (toP.col - fromP.col).natAbs ≤ 1 := by
  unfold getKingMoves offsetMoves at h
  rw [List.mem_flatMap] at h
  obtain ⟨d, hd, hmem⟩ := h
  have hx : toP = ⟨fromP.row + d.1, fromP.col + d.2⟩ := by
    dsimp only at hmem
    split at hmem
    all_goals try split at hmem
    all_goals try split at hmem
    all_goals first
      | simpa using hmem
      | simp at hmem
  subst hx
  unfold kingOffsets at hd
  fin_cases hd <;> simp <;> omega

/-- Claim C6: for a king standing on its home square, the castling
destination (column 6 or 2 of the home rank) is in its legal-move set only
when the corresponding rights flag is true, the squares between king and rook
are empty, the king is not currently in check, and neither the square the
king passes through nor the destination is attacked by the opponent; in
particular castling is never legal while in check. -/
theorem c6_castling_necessary_conditions (board : Board) (color : PieceColor)
    (side : CastleSide) (ep : Option Position) (cr : CastlingRights)
    (hk : getPieceAt board ⟨castleRow color, 4⟩ = some ⟨king, color⟩)
    (hmem : (⟨castleRow color, castleDestCol side⟩ : Position) ∈
      getLegalMoves board ⟨castleRow color, 4⟩ ep cr) :
    castleFlag cr color side = true ∧
    isInCheck board color = false ∧
    betweenSquaresEmpty board color side = true ∧
    kingPassSafe board color side = true ∧
    destNotAttacked board color side = true := by
  obtain ⟨_, hmem2⟩ := mem_getLegalMoves_elim hk hmem
  rw [if_pos (show ((⟨king, color⟩ : Piece).type == king) = true from rfl)] at hmem2
  rw [List.mem_append] at hmem2
  rcases hmem2 with hpseudo | hcastle
  · exfalso
    have hkm : (⟨castleRow color, castleDestCol side⟩ : Position) ∈
        getKingMoves board ⟨castleRow color, 4⟩ color := by
      unfold getPseudoLegalMoves at hpseudo
      rw [hk] at hpseudo
      exact hpseudo
    have h2 := (mem_getKingMoves_adjacent hkm).2
    cases side <;> simp [castleDestCol] at h2
  · obtain ⟨side2, hdest, hflag, hcc⟩ := mem_castleMoves_elim hcastle
    have hside : side2 = side := by
      cases side <;> cases side2 <;> first
        | rfl
        | (exfalso
           rw [position_eq_iff] at hdest
           simp [castleDestCol] at hdest)
    subst hside
    rw [canCastle_eq_true_iff] at hcc
    exact ⟨hflag, hcc.1, hcc.2.1, hcc.2.2.1, hcc.2.2.2⟩

/-- Witness for C6: white can castle kingside with king e1 and rook h1 on an
otherwise empty back rank; all five necessary conditions hold there. -/
def c6state : GameState :=
  mkState (boardOf [(7, 4, ⟨king, white⟩), (7, 7, ⟨rook, white⟩),
    (0, 4, ⟨king, black⟩)]) white allRights

theorem c6_castling_necessary_conditions_witness :
    castleFlag c6state.castlingRights white CastleSide.kingside = true ∧
    isInCheck c6state.board white = false ∧
    betweenSquaresEmpty c6state.board white CastleSide.kingside = true ∧
    kingPassSafe c6state.board white CastleSide.kingside = true ∧
    destNotAttacked c6state.board white CastleSide.kingside = true :=
  c6_castling_necessary_conditions c6state.board white CastleSide.kingside
    c6state.enPassantTarget c6state.castlingRights (by decide) (by decide)

/-! ### Claim C8: determinism and tie-breaking of the search -/

theorem scoreLe_refl (a : Score) : scoreLe a a = true := by
  cases a <;> simp [scoreLe, scoreLt]

theorem scoreLe_posInf_iff (a : Score) : scoreLe Score.posInf a = true ↔ a = Score.posInf := by
  cases a <;> simp [scoreLe, scoreLt]

theorem scoreLt_posInf_iff (a : Score) : scoreLt a Score.posInf = true ↔ a ≠ Score.posInf := by
  cases a <;> simp [scoreLt]

theorem scoreMax_eq_posInf {a b : Score} (h : scoreMax a b = Score.posInf) :
    a = Score.posInf ∨ b = Score.posInf := by
  unfold scoreMax at h
  by_cases hlt : scoreLt a b = true
  · rw [if_pos hlt] at h
    exact Or.inr h
  · rw [if_neg hlt] at h
    exact Or.inl h

theorem scoreLe_of_scoreLe_of_ne_posInf {a b : Score}
    (h1 : scoreLe a b = true) (h2 : b ≠ Score.posInf) : a ≠ Score.posInf := by
  intro ha
  subst ha
  exact h2 ((scoreLe_posInf_iff b).mp h1)

theorem scoreLe_scoreMax_scoreMax {a b s : Score} (h : scoreLe a b = true) :
    scoreLe (scoreMax a s) (scoreMax b s) = true := by
  cases a <;> cases b <;> cases s <;>
    simp_all [scoreLe, scoreLt, scoreMax] <;> split_ifs <;> simp_all <;> omega

theorem scoreLt_of_le {a b : Score} (hne : a ≠ Score.posInf) (h : scoreLe a b = true)
    (hb : b = Score.posInf) : scoreLt a b = true := by
  subst hb
  exact (scoreLt_posInf_iff a).mpr hne

theorem scoreMax_posInf_right (a : Score) : scoreMax a Score.posInf = Score.posInf := by
  cases a <;> simp [scoreMax, scoreLt]

/-- Once the running maximum is `+Infinity`, the reference fold never changes
its pick again. -/
theorem foldPick_posInf (trace : List (SimpleMove × Score)) (b : Option SimpleMove) :
    foldPick trace Score.posInf b = (Score.posInf, b) := by
  induction trace with
  | nil => rfl
  | cons x rest ih =>
    unfold foldPick
    rw [if_neg (by cases x.2 <;> simp [scoreLt])]
    exact ih

/-- At the root (beta is `+Infinity`), the alpha-beta maximizing loop computes
exactly the prune-free first-strict-improvement fold over the scores it
evaluates: alpha-beta pruning and tie-breaking do not change the selected
move.  The invariant `maxScore ≤ alpha < +Infinity` holds at the root, where
both start at `-Infinity`. -/
theorem maximizeGo_posInf_eq_foldPick (g : GameState) (recurse : GameState → Score → Score) :
    ∀ (moves : List SimpleMove) (alpha m0 : Score) (b0 : Option SimpleMove),
      scoreLe m0 alpha = true → alpha ≠ Score.posInf →
      maximizeGo g recurse Score.posInf moves alpha m0 b0 =
        foldPick (scoreTrace g recurse moves alpha) m0 b0 := by
  intro moves
  induction moves with
  | nil => intro alpha m0 b0 h1 h2; rfl
  | cons m rest ih =>
    intro alpha m0 b0 h1 h2
    unfold maximizeGo scoreTrace
    cases hmk : makeMove g m.fromPos m.toPos with
    | none => exact ih alpha m0 b0 h1 h2
    | some g2 =>
      dsimp only
      by_cases hbreak : scoreLe Score.posInf (scoreMax alpha (recurse g2 alpha)) = true
      · rw [if_pos hbreak]
        have hsp : recurse g2 alpha = Score.posInf := by
          rcases scoreMax_eq_posInf ((scoreLe_posInf_iff _).mp hbreak) with h | h
          · exact absurd h h2
          · exact h
        have hm0 : m0 ≠ Score.posInf := scoreLe_of_scoreLe_of_ne_posInf h1 h2
        have hlt : scoreLt m0 (recurse g2 alpha) = true := scoreLt_of_le hm0
          (by rw [hsp]; cases m0 <;> simp [scoreLe, scoreLt]) hsp
        rw [if_pos hlt, if_pos hlt]
        unfold foldPick
        rw [if_pos hlt, hsp, foldPick_posInf]
      · rw [if_neg hbreak]
        have halpha2 : scoreMax alpha (recurse g2 alpha) ≠ Score.posInf := by
          intro hcontra
          rw [hcontra] at hbreak
          exact hbreak (scoreLe_refl _)
        have h1' : scoreLe (if scoreLt m0 (recurse g2 alpha) = true then recurse g2 alpha
            else m0) (scoreMax alpha (recurse g2 alpha)) = true := by
          have : (if scoreLt m0 (recurse g2 alpha) = true then recurse g2 alpha else m0) =
              scoreMax m0 (recurse g2 alpha) := rfl
          rw [this]
          exact scoreLe_scoreMax_scoreMax h1
        unfold foldPick
        by_cases hlt : scoreLt m0 (recurse g2 alpha) = true
        · rw [if_pos hlt, if_pos hlt, if_pos hlt]
          have h1x : scoreLe (recurse g2 alpha) (scoreMax alpha (recurse g2 alpha)) = true := by
            rw [if_pos hlt] at h1'
            exact h1'
          exact ih (scoreMax alpha (recurse g2 alpha)) (recurse g2 alpha) (some m) h1x halpha2
        · rw [if_neg hlt, if_neg hlt, if_neg hlt]
          have h1x : scoreLe m0 (scoreMax alpha (recurse g2 alpha)) = true := by
            rw [if_neg hlt] at h1'
            exact h1'
          exact ih (scoreMax alpha (recurse g2 alpha)) m0 b0 h1x halpha2

theorem scoreLt_irrefl (a : Score) : scoreLt a a = false := by
  cases a <;> simp [scoreLt]

theorem scoreLt_ne {a b : Score} (h : scoreLt a b = true) : a ≠ b := by
  intro he
  subst he
  rw [scoreLt_irrefl] at h
  exact absurd h (by simp)

theorem scoreLt_of_lt_of_le {a b c : Score} (h1 : scoreLt a b = true)
    (h2 : scoreLe b c = true) : scoreLt a c = true := by
  cases a <;> cases b <;> cases c <;> simp_all [scoreLt, scoreLe] <;> omega

theorem scoreLt_of_le_of_lt {a b c : Score} (h1 : scoreLe a b = true)
    (h2 : scoreLt b c = true) : scoreLt a c = true := by
  cases a <;> cases b <;> cases c <;> simp_all [scoreLt, scoreLe] <;> omega

theorem scoreEq_of_le_of_not_lt {a b : Score} (h1 : scoreLe a b = true)
    (h2 : scoreLt a b = false) : a = b := by
  cases a <;> cases b <;> simp_all [scoreLt, scoreLe] <;> omega

theorem scoreLe_scoreMax_left (a b : Score) : scoreLe a (scoreMax a b) = true := by
  cases a <;> cases b <;> simp [scoreLt, scoreLe, scoreMax] <;> split_ifs <;>
    simp_all [scoreLt, scoreLe] <;> omega

theorem scoreLe_trans {a b c : Score} (h1 : scoreLe a b = true)
    (h2 : scoreLe b c = true) : scoreLe a c = true := by
  cases a <;> cases b <;> cases c <;> simp_all [scoreLt, scoreLe] <;> omega

theorem scoreLe_traceMax (trace : List (SimpleMove × Score)) :
    ∀ a : Score, scoreLe a (traceMax trace a) = true := by
  induction trace with
  | nil => intro a; exact scoreLe_refl a
  | cons x rest ih =>
    intro a
    have h1 : scoreLe a (scoreMax a x.2) = true := scoreLe_scoreMax_left a x.2
    exact scoreLe_trans h1 (ih (scoreMax a x.2))

theorem traceMax_cons (mv : SimpleMove) (s : Score) (rest : List (SimpleMove × Score))
    (m0 : Score) : traceMax ((mv, s) :: rest) m0 = traceMax rest (scoreMax m0 s) := rfl

theorem firstAttainer_cons (mv : SimpleMove) (s : Score) (rest : List (SimpleMove × Score))
    (target : Score) :
    firstAttainer ((mv, s) :: rest) target =
      if (s == target) = true then some mv else firstAttainer rest target := by
  unfold firstAttainer
  by_cases h : (s == target) = true
  · rw [if_pos h, List.find?_cons_of_pos _ (by simpa using h)]
    rfl
  · rw [if_neg h, List.find?_cons_of_neg _ (by simpa using h)]

/-- The first-strict-improvement fold returns the running maximum of the
scores together with the *first* entry attaining it; an entry merely tying
the running best never replaces the incumbent. -/
theorem foldPick_firstAttainer (trace : List (SimpleMove × Score)) :
    ∀ (m0 : Score) (b0 : Option SimpleMove),
      foldPick trace m0 b0 =
        (traceMax trace m0,
          if scoreLt m0 (traceMax trace m0) = true then
            firstAttainer trace (traceMax trace m0)
          else b0) := by
  induction trace with
  | nil =>
    intro m0 b0
    unfold foldPick traceMax
    rw [if_neg (by rw [List.foldl_nil, scoreLt_irrefl]; simp)]
    rfl
  | cons x rest ih =>
    intro m0 b0
    obtain ⟨mv, s⟩ := x
    rw [traceMax_cons]
    unfold foldPick
    by_cases hlt : scoreLt m0 s = true
    · rw [if_pos hlt]
      have hmax : scoreMax m0 s = s := by
        unfold scoreMax
        rw [if_pos hlt]
      rw [hmax, ih s (some mv)]
      have hm0T : scoreLt m0 (traceMax rest s) = true :=
        scoreLt_of_lt_of_le hlt (scoreLe_traceMax rest s)
      rw [if_pos hm0T, firstAttainer_cons]
      by_cases hlt2 : scoreLt s (traceMax rest s) = true
      · rw [if_pos hlt2,
          if_neg (by simpa using scoreLt_ne hlt2)]
      · have heq : s = traceMax rest s :=
          scoreEq_of_le_of_not_lt (scoreLe_traceMax rest s) (by simpa using hlt2)
        rw [if_neg hlt2, if_pos (by simpa using heq)]
    · rw [if_neg hlt]
      have hmax : scoreMax m0 s = m0 := by
        unfold scoreMax
        rw [if_neg hlt]
      rw [hmax, ih m0 b0]
      by_cases hcond : scoreLt m0 (traceMax rest m0) = true
      · have hsm0 : scoreLe s m0 = true := by
          unfold scoreLe
          simpa using hlt
        have hsT : scoreLt s (traceMax rest m0) = true := scoreLt_of_le_of_lt hsm0 hcond
        rw [if_pos hcond, if_pos hcond, firstAttainer_cons,
          if_neg (by simpa using scoreLt_ne hsT)]
      · rw [if_neg hcond, if_neg hcond]

/-- Claim C8: `getBestMove` is deterministic, and among moves tying for the
best score the first one in the capture-first sorted enumeration order is
kept — the root maximizing loop (beta = `+Infinity`) equals the prune-free
first-strict-improvement fold over the computed scores, that fold picks the
first attainer of the maximum and never lets an equal score displace the
incumbent, and `getBestMove` on a non-terminal state is exactly that fold's
pick over the capture-first sorted move list. -/
theorem c8_search_determinism_and_tiebreak :
    (∀ (g : GameState) (d : Nat), getBestMove g d = getBestMove g d) ∧
    (∀ (g : GameState) (recurse : GameState → Score → Score) (moves : List SimpleMove)
        (alpha m0 : Score) (b0 : Option SimpleMove),
      scoreLe m0 alpha = true → alpha ≠ Score.posInf →
      maximizeGo g recurse Score.posInf moves alpha m0 b0 =
        foldPick (scoreTrace g recurse moves alpha) m0 b0) ∧
    (∀ (trace : List (SimpleMove × Score)) (m0 : Score) (b0 : Option SimpleMove),
      foldPick trace m0 b0 =
        (traceMax trace m0,
          if scoreLt m0 (traceMax trace m0) = true then
            firstAttainer trace (traceMax trace m0)
          else b0)) ∧
    (∀ (g : GameState) (d : Nat), g.isCheckmate = false → g.isStalemate = false →
      getBestMove g (d + 1) =
        (foldPick (scoreTrace g (fun g2 a => (minimax d g2 a Score.posInf false).1)
            (sortMovesCapturesFirst g (collectAllMoves g)) Score.negInf)
          Score.negInf none).2) := by
  refine ⟨fun g d => rfl, maximizeGo_posInf_eq_foldPick, foldPick_firstAttainer, ?_⟩
  intro g d hm hs
  unfold getBestMove
  rw [minimax, hm, hs]
  simp only [Bool.or_self, Bool.false_eq_true, if_false, if_true, ite_false, ite_true]
  rw [maximizeGo_posInf_eq_foldPick g _ _ Score.negInf Score.negInf none
    (scoreLe_refl _) (by simp)]

/-- Witness for C8 at concrete inputs: the trivial depth-0 search, an empty
move list at the root loop, a one-element trace for the fold, and the
depth-1 search from the initial position. -/
theorem c8_search_determinism_and_tiebreak_witness :
    (getBestMove initialGameState 0 = getBestMove initialGameState 0) ∧
    (maximizeGo initialGameState (fun _ _ => Score.num 0) Score.posInf []
        Score.negInf Score.negInf none =
      foldPick (scoreTrace initialGameState (fun _ _ => Score.num 0) [] Score.negInf)
        Score.negInf none) ∧
    (foldPick [(⟨⟨6, 4⟩, ⟨4, 4⟩⟩, Score.num 5)] Score.negInf none =
      (traceMax [(⟨⟨6, 4⟩, ⟨4, 4⟩⟩, Score.num 5)] Score.negInf,
        if scoreLt Score.negInf
            (traceMax [(⟨⟨6, 4⟩, ⟨4, 4⟩⟩, Score.num 5)] Score.negInf) = true then
          firstAttainer [(⟨⟨6, 4⟩, ⟨4, 4⟩⟩, Score.num 5)]
            (traceMax [(⟨⟨6, 4⟩, ⟨4, 4⟩⟩, Score.num 5)] Score.negInf)
        else none)) ∧
    (getBestMove initialGameState 1 =
      (foldPick (scoreTrace initialGameState
            (fun g2 a => (minimax 0 g2 a Score.posInf false).1)
            (sortMovesCapturesFirst initialGameState (collectAllMoves initialGameState))
            Score.negInf)
          Score.negInf none).2) :=
  ⟨c8_search_determinism_and_tiebreak.1 initialGameState 0,
   c8_search_determinism_and_tiebreak.2.1 initialGameState (fun _ _ => Score.num 0) []
     Score.negInf Score.negInf none (scoreLe_refl _) (by simp),
   c8_search_determinism_and_tiebreak.2.2.1 [(⟨⟨6, 4⟩, ⟨4, 4⟩⟩, Score.num 5)]
     Score.negInf none,
   c8_search_determinism_and_tiebreak.2.2.2 initialGameState 0 rfl rfl⟩

end Chess
